import Mathlib

/-
  Verification development for `validate_fsa029.py` (Suade XML challenge).

  The Python source validates an FSA029 XML submission against a local copy of
  the regulator's XSD hierarchy.  Its core pieces, shallowly embedded here:

  * `make_secure_parser` : an lxml `XMLParser` built with the four hardening
    flags `load_dtd=False, no_network=True, resolve_entities=False,
    huge_tree=False`; modelled by the record `XMLParserCfg` and the constant
    `make_secure_parser_cfg` (the Lean name carries a `_cfg` suffix).
  * `load_xml` : wraps `ET.parse`, converting `XMLSyntaxError` / `OSError`
    into distinct typed errors; modelled over an abstract environment `Env`
    that fixes the outcome of each external call (lxml, filesystem).
  * `rewrite_schema_imports_in_memory` : walks every `xs:import` /
    `xs:include` / `xs:redefine` descendant of the schema root, and for each
    node whose non-empty `schemaLocation` contains the forbidden marker
    `/CommonTypes/v14/` (forward- or backward-slash form) replaces the
    attribute with `(schema_dir / Path(loc).name).resolve().as_uri()`; a
    second pass re-traverses the mutated tree and raises if the marker is
    still present anywhere.  This function is filesystem-free except for
    `Path.resolve`; we model the CPython POSIX (`PurePosixPath`) semantics of
    `Path(loc).name`, `/`, `resolve()` (symlink-free: `..` drops the final
    segment of the already-resolved directory) and `as_uri()` (percent-quoting
    of the UTF-8 bytes with safe set `ALWAYS_SAFE + '/'`) character by
    character.  The resolved schema directory enters the model as its list of
    path segments.
  * `compile_schema`  : serializes the rewritten tree (`xml_declaration=True,
    encoding="utf-8"`), re-parses the bytes with a fresh secure parser, and
    compiles them with `ET.XMLSchema`, aggregating every diagnostic of
    `XMLSchemaParseError.error_log` on failure.
  * `validate`       : the pipeline; returns process exit code 0 / 1 / 2.
    Its externally visible behaviour is modelled by `RunResult`: the exit
    code, the validation diagnostics printed in the exit-1 branch, the
    operational error printed in the exit-2 branches, and the trace of
    external calls (stat / parse events) in order.
-/

namespace FSA029

/-! ## XML trees (lxml `_Element`) -/

/-- An XML element as lxml exposes it: namespace URI (empty when none),
local tag name, the ordered attribute list (string keys and values), and the
ordered children.  `root.findall(".//xs:tag", NS)` matches descendants (the
root itself excluded) whose namespace is the XSD namespace and whose local
name is `tag`. -/
inductive Element where
  | node (ns localName : String) (attrs : List (String × String))
      (children : List Element)

/-- Namespace constant `XS_NS` from the source. -/
def XS_NS : String := "http://www.w3.org/2001/XMLSchema"

/-- lxml `node.get(key)`: value of the first attribute with this key, if
present (XML forbids duplicate keys, so first = only). -/
def getAttr : List (String × String) → String → Option String
  | [], _ => none
  | (k0, v0) :: rest, k => if k0 = k then some v0 else getAttr rest k

/-- lxml `node.set(key, value)`: replace the value of the existing attribute
in place, else append the pair at the end. -/
def setAttrList : List (String × String) → String → String → List (String × String)
  | [], k, v => [(k, v)]
  | (k0, v0) :: rest, k, v =>
      if k0 = k then (k, v) :: rest else (k0, v0) :: setAttrList rest k v

/-- The tags the rewriter targets: `import`, `include`, `redefine` in the XSD
namespace (the `for tag in ("import", "include", "redefine")` loop together
with the `xs:` prefix of the findall pattern). -/
def isRefName (ns localName : String) : Bool :=
  ns = XS_NS &&
    (localName = "import" || localName = "include" || localName = "redefine")

/-! ## The forbidden marker and substring search -/

/-- Forward-slash form of the forbidden marker (string literal of the
source). -/
def fwdMarker : String := "/CommonTypes/v14/"

/-- Backward-slash form of the forbidden marker (the Python literal
`"\\CommonTypes\\v14\\"`, i.e. with single backslashes in the runtime
string). -/
def bwdMarker : String := "\\CommonTypes\\v14\\"

/-- Whether `pat` occurs at the start of `s` (character lists). -/
def startsWithSeq : List Char → List Char → Bool
  | [], _ => true
  | _ :: _, [] => false
  | p :: ps, c :: cs => p = c && startsWithSeq ps cs

/-- Whether `pat` occurs contiguously anywhere in `s`; this is Python's
`pat in s` on strings. -/
def containsSeq (pat : List Char) : List Char → Bool
  | [] => startsWithSeq pat []
  | c :: cs => startsWithSeq pat (c :: cs) || containsSeq pat cs

/-- Python `"/CommonTypes/v14/" in loc or "\\CommonTypes\\v14\\" in loc`. -/
def containsMarker (s : String) : Bool :=
  containsSeq fwdMarker.data s.data || containsSeq bwdMarker.data s.data

/-! ## POSIX pathlib semantics: `Path(loc).name`, join, resolve, `as_uri` -/

/-- Split a character list on a separator character; mirrors how
`PurePosixPath` cuts a path string into raw components ( `"a/b"` into
`["a", "b"]`, keeping empty pieces for doubled or leading separators). -/
def splitOnChar (sep : Char) : List Char → List (List Char)
  | [] => [[]]
  | c :: cs =>
    match splitOnChar sep cs with
    | [] => [[c]]
    | g :: gs => if c = sep then [] :: g :: gs else (c :: g) :: gs

/-- `PurePosixPath(s).name`: the last component after dropping empty and `"."`
components; empty when no component remains.  On POSIX only `'/'` separates —
a backslash is an ordinary name character. -/
def posixNameChars (s : List Char) : List Char :=
  (((splitOnChar '/' s).filter
      (fun seg => !(seg = ([] : List Char)) && !(seg = ['.']))).getLastD [])

/-- String wrapper of `posixNameChars`; this is the model of
`Path(loc).name` in the source. -/
def posixName (s : String) : String := ⟨posixNameChars s.data⟩

/-- One resolution step of `(schema_dir / file_name).resolve()` over the
already-resolved absolute segment list of `schema_dir`, assuming no symlink
is involved: pathlib drops `""` and `"."` parts at construction, and
`resolve()` folds a trailing `".."` into the parent directory. -/
def resolveSegs (dirSegs : List String) (fileName : String) : List String :=
  if fileName = "" || fileName = "." then dirSegs
  else if fileName = ".." then dirSegs.dropLast
  else dirSegs ++ [fileName]

/-- UTF-8 encoding of one scalar value, as `bytes(str(path))` produces it. -/
def charUtf8 (c : Char) : List Nat :=
  if c.toNat < 128 then [c.toNat]
  else if c.toNat < 2048 then [192 + c.toNat / 64, 128 + c.toNat % 64]
  else if c.toNat < 65536 then
    [224 + c.toNat / 4096, 128 + (c.toNat / 64) % 64, 128 + c.toNat % 64]
  else
    [240 + c.toNat / 262144, 128 + (c.toNat / 4096) % 64,
     128 + (c.toNat / 64) % 64, 128 + c.toNat % 64]

/-- Bytes that `urllib.parse.quote(..., safe='/')` leaves unescaped:
letters, digits, `_ . - ~` and `/`. -/
def isSafeByte (n : Nat) : Bool :=
  (48 ≤ n && n ≤ 57) || (65 ≤ n && n ≤ 90) || (97 ≤ n && n ≤ 122) ||
    n = 95 || n = 46 || n = 45 || n = 126 || n = 47

/-- Uppercase hexadecimal digit, as `quote` renders escape bytes. -/
def hexDigitChar (n : Nat) : Char :=
  if n < 10 then Char.ofNat (48 + n) else Char.ofNat (55 + n)

/-- Percent-quote a single byte. -/
def quoteByte (n : Nat) : List Char :=
  if isSafeByte n then [Char.ofNat n]
  else ['%', hexDigitChar (n / 16 % 16), hexDigitChar (n % 16)]

/-- `urllib.parse.quote_from_bytes(bs, safe='/')` over a character list:
encode to UTF-8 and percent-quote each byte. -/
def quoteAll (l : List Char) : List Char :=
  (l.flatMap charUtf8).flatMap quoteByte

/-- `str(path)` of an absolute `PosixPath` given by its segments: `"/"` for
the root, otherwise `"/" ++ seg` for each segment in order. -/
def pathChars (segs : List String) : List Char :=
  match segs with
  | [] => ['/']
  | _ :: _ => segs.flatMap (fun seg => '/' :: seg.data)

/-- Characters of `path.as_uri()` for an absolute POSIX path:
`'file://' + quote(bytes(str(path)), safe='/')`. -/
def uriChars (segs : List String) : List Char :=
  "file://".data ++ quoteAll (pathChars segs)

/-- `path.as_uri()` as a string. -/
def as_uri_abs (segs : List String) : String := ⟨uriChars segs⟩

/-- `local_uri = (schema_dir / file_name).resolve().as_uri()` from the
source, over the resolved segments of `schema_dir`. -/
def local_uri (dirSegs : List String) (fileName : String) : String :=
  as_uri_abs (resolveSegs dirSegs fileName)

/-- The directory's file URI with exactly one trailing slash: the string
every non-dot rewritten location extends.  For the root directory the URI
`file:///` already ends with the slash. -/
def dir_uri_slash_chars (dirSegs : List String) : List Char :=
  "file://".data ++
    quoteAll (pathChars dirSegs ++ (if dirSegs.isEmpty then [] else ['/']))

/-- String form of `dir_uri_slash_chars`. -/
def dir_uri_slash (dirSegs : List String) : String := ⟨dir_uri_slash_chars dirSegs⟩

/-! ## The rewrite pass -/

/-- Body of the first `findall` loop for a single node, given the resolved
segments of `schema_dir`: skip when `schemaLocation` is absent or empty
(`if not loc: continue`); otherwise compute `file_name = Path(loc).name` and
`local_uri`, and replace the attribute exactly when the location contains the
forbidden marker in either slash form.  (The source computes `file_name` and
`local_uri` before the marker test; both are effect-free, so the net change
is the guarded `node.set`.) -/
def locTransform (dirSegs : List String) (attrs : List (String × String)) :
    List (String × String) :=
  match getAttr attrs "schemaLocation" with
  | none => attrs
  | some loc =>
    if loc = "" then attrs
    else if containsMarker loc then
      setAttrList attrs "schemaLocation" (local_uri dirSegs (posixName loc))
    else attrs

/-- Apply the loop body to one element: only `xs:import` / `xs:include` /
`xs:redefine` nodes are in any `findall` result, all other nodes are left
alone. -/
def transformRef (dirSegs : List String) : Element → Element
  | .node ns ln attrs cs =>
    if isRefName ns ln then .node ns ln (locTransform dirSegs attrs) cs
    else .node ns ln attrs cs

mutual

/-- Rewrite an element and all of its descendants.  The per-node mutation is
independent of every other node, so applying it in any traversal order —
lxml iterates the three tag lists one after the other — produces this same
tree. -/
def rewriteElem (dirSegs : List String) : Element → Element
  | .node ns ln attrs cs =>
      transformRef dirSegs (.node ns ln attrs (rewriteList dirSegs cs))

/-- Rewrite every element of a list of siblings. -/
def rewriteList (dirSegs : List String) : List Element → List Element
  | [] => []
  | c :: cs => rewriteElem dirSegs c :: rewriteList dirSegs cs

end

/-- Effect of the first pass on the whole tree: `findall(".//...")` never
matches the root itself, so the root node is untouched and every descendant
goes through `transformRef`. -/
def rewriteTree (dirSegs : List String) : Element → Element
  | .node ns ln attrs cs => .node ns ln attrs (rewriteList dirSegs cs)

/-- The view of a schema-reference node that the rewriter reads and writes:
namespace, local name, attribute list. -/
abbrev RefView := String × String × List (String × String)

mutual

/-- Reference-node views of an element and its descendants, in document
order. -/
def refViewsElem : Element → List RefView
  | .node ns ln attrs cs =>
      (if isRefName ns ln then [(ns, ln, attrs)] else []) ++ refViewsList cs

/-- Reference-node views of a sibling list, in document order. -/
def refViewsList : List Element → List RefView
  | [] => []
  | c :: cs => refViewsElem c ++ refViewsList cs

end

/-- Reference-node views strictly below the root — exactly the nodes the two
`findall(".//xs:...")` passes visit. -/
def refViewsBelow : Element → List RefView
  | .node _ _ _ cs => refViewsList cs

/-- `node.get("schemaLocation") or ""` of a reference view (the second
pass's read). -/
def viewLoc (v : RefView) : String := (getAttr v.2.2 "schemaLocation").getD ""

/-- Whether the defensive second pass finds the forbidden marker in some
reference node of the (already mutated) tree. -/
def anyMarked (e : Element) : Bool :=
  (refViewsBelow e).any (fun v => containsMarker (viewLoc v))

/-- Action of the rewrite pass on one reference-node view. -/
def viewTransform (dirSegs : List String) (v : RefView) : RefView :=
  (v.1, v.2.1, locTransform dirSegs v.2.2)

/-- Blank out the `schemaLocation` value of an attribute list (frame mask:
what the rewriter may change on a reference node). -/
def eraseVals (attrs : List (String × String)) : List (String × String) :=
  attrs.map (fun p => if p.1 = "schemaLocation" then (p.1, "") else p)

mutual

/-- Mask every reference node's `schemaLocation` value in a tree; two trees
equal modulo this mask agree on everything the rewrite pass may not touch. -/
def eraseElem : Element → Element
  | .node ns ln attrs cs =>
      .node ns ln (if isRefName ns ln then eraseVals attrs else attrs)
        (eraseList cs)

/-- `eraseElem` on a sibling list. -/
def eraseList : List Element → List Element
  | [] => []
  | c :: cs => eraseElem c :: eraseList cs

end

/-! ## Typed pipeline errors (the `RuntimeError` messages of the source) -/

/-- A diagnostic entry of an lxml error log: line, column, message. -/
structure Diagnostic where
  line : Nat
  column : Nat
  message : String
deriving DecidableEq

/-- The typed content of the `RuntimeError`s the pipeline raises and of the
other exit-2 reports printed by `validate`. -/
inductive RunError where
  | forbiddenPath
  | notADirectory (p : String)
  | missingFile (p : String)
  | notWellFormed (kind detail : String)
  | cannotRead (kind path detail : String)
  | rewriteIncomplete
  | schemaCompilation (diags : List Diagnostic)
deriving DecidableEq

/-- `rewrite_schema_imports_in_memory`: run the rewrite pass, then re-traverse
the mutated tree and raise the rewrite-incomplete `RuntimeError` if the
forbidden marker survives in any reference node's `schemaLocation`; otherwise
return the mutated tree. -/
def rewrite_schema_imports_in_memory (dirSegs : List String) (t : Element) :
    Except RunError Element :=
  let t' := rewriteTree dirSegs t
  if anyMarked t' then .error .rewriteIncomplete else .ok t'

/-! ## Parser configuration and the external environment -/

/-- The four keyword arguments of the lxml `XMLParser` constructed by
`make_secure_parser`. -/
structure XMLParserCfg where
  load_dtd : Bool
  no_network : Bool
  resolve_entities : Bool
  huge_tree : Bool
deriving DecidableEq

/-- `make_secure_parser()` (Lean forbids the bare source name here): the one
parser configuration the program ever builds — `load_dtd=False,
no_network=True, resolve_entities=False, huge_tree=False`. -/
def make_secure_parser_cfg : XMLParserCfg := ⟨false, true, false, false⟩

/-- Outcome of `ET.parse(path, parser)`: a tree, an `XMLSyntaxError` (the
bytes are readable but not well-formed under the configuration), or an
`OSError` (the source cannot be read).  These are the lxml outcomes `load_xml`
is written against. -/
inductive ParseOutcome where
  | ok (t : Element)
  | syntaxError (detail : String)
  | ioError (detail : String)

/-- Externally observable calls the pipeline makes, in order.  The two parse
events record the parser configuration handed to lxml. -/
inductive Event where
  | statDir (p : String)
  | statFile (p : String)
  | parseFile (cfg : XMLParserCfg) (path : String) (kind : String)
  | serializeTree
  | parseBytes (cfg : XMLParserCfg)
  | compileCall
  | docValidateCall
deriving DecidableEq

/-- The environment fixing every external call of the pipeline: lxml parsing
and schema compilation, `Path.is_dir` / `Path.is_file`, `Path.resolve` of the
schema directory (as its absolute segment list), serialization, document
validation and the validator's error log.  `σ` is the opaque type of compiled
`ET.XMLSchema` objects. -/
structure Env (σ : Type) where
  parse : XMLParserCfg → String → ParseOutcome
  is_dir : String → Bool
  is_file : String → Bool
  resolve : String → List String
  tostring : Bool → String → Element → List Nat
  fromstring : XMLParserCfg → List Nat → Element
  XMLSchema : Element → Except (List Diagnostic) σ
  validateDoc : σ → Element → Bool
  error_log : σ → Element → List Diagnostic

/-- `load_xml(path, kind)`: call `ET.parse` with a fresh secure parser and
convert the two lxml failures into the two distinct typed errors (the
malformed message carries the kind and the lxml detail, the unreadable
message carries the kind, the path and the OS detail).  No tree is returned
on failure. -/
def load_xml (env : Env σ) (path : String) (kind : String) :
    Except RunError Element :=
  match env.parse make_secure_parser_cfg path with
  | .ok t => .ok t
  | .syntaxError d => .error (.notWellFormed kind d)
  | .ioError d => .error (.cannotRead kind path d)

/-- `compile_schema(xsd_tree)`: build a fresh secure parser, serialize the
tree with an XML declaration in UTF-8, re-parse the bytes with that parser
(`fromstring` of a just-serialized tree is well-formed, so it is total here;
the source catches only `XMLSchemaParseError`), and compile; on compilation
failure raise the error aggregating the full `error_log`. -/
def compile_schema (env : Env σ) (t : Element) :
    Except RunError σ × List Event :=
  match env.XMLSchema
      (env.fromstring make_secure_parser_cfg (env.tostring true "utf-8" t)) with
  | .ok s =>
      (.ok s, [.serializeTree, .parseBytes make_secure_parser_cfg, .compileCall])
  | .error ds =>
      (.error (.schemaCompilation ds),
        [.serializeTree, .parseBytes make_secure_parser_cfg, .compileCall])

/-! ## `validate`: string-level path handling and the pipeline -/

/-- `str(PurePosixPath(s))`: drop empty and `"."` components, keep one
leading slash for absolute paths, render `"."` for an empty relative path.
(The POSIX `"//"` double-slash root is collapsed to `"/"`; marker containment
is unaffected by that corner.) -/
def normPath (s : String) : String :=
  let comps := (splitOnChar '/' s.data).filter
    (fun seg => !(seg = ([] : List Char)) && !(seg = ['.']))
  if s.data.head? = some '/' then ⟨'/' :: List.intercalate ['/'] comps⟩
  else if comps.isEmpty then "."
  else ⟨List.intercalate ['/'] comps⟩

/-- `str(Path(sd) / name)` for a normalized `sd` and a plain file name. -/
def joinPath (sd name : String) : String :=
  if sd = "/" then ⟨'/' :: name.data⟩
  else if sd = "." then name
  else sd ++ "/" ++ name

/-- The observable result of one `validate` run: the process exit code, the
validation diagnostics printed in the exit-1 branch, the operational error
printed in an exit-2 branch, and the trace of external calls. -/
structure RunResult where
  exit : Nat
  reported : List Diagnostic
  opError : Option RunError
  events : List Event
deriving DecidableEq

/-- The four stat events of a run that passes all existence checks. -/
def statEvents (a b : String) : List Event :=
  [.statDir (normPath a),
   .statFile (joinPath (normPath a) "FSA029-Schema.xsd"),
   .statFile (joinPath (normPath a) "CommonTypes-Schema.xsd"),
   .statFile (normPath b)]

/-- The parse event of one `load_xml` call. -/
def parseEvent (path kind : String) : Event :=
  .parseFile make_secure_parser_cfg path kind

/-- `validate(args)`: the whole pipeline in source order — construct the two
paths and the two expected schema file paths; reject either path containing
the forbidden marker (exit 2, before anything else runs); check the schema
directory and the three files exist; load the main XSD, the common-types XSD
(result discarded: loaded only to fail fast) and the submission; rewrite the
main XSD in memory; recompile it; validate the submission, printing the full
validator error log on a negative answer (exit 1). -/
def validate (env : Env σ) (a b : String) : RunResult :=
  if containsMarker (normPath a) || containsMarker (normPath b) then
    ⟨2, [], some .forbiddenPath, []⟩
  else if env.is_dir (normPath a) then
    if env.is_file (joinPath (normPath a) "FSA029-Schema.xsd") then
      if env.is_file (joinPath (normPath a) "CommonTypes-Schema.xsd") then
        if env.is_file (normPath b) then
          match load_xml env (joinPath (normPath a) "FSA029-Schema.xsd") "Main XSD" with
          | .error e =>
              ⟨2, [], some e, statEvents a b ++
                [parseEvent (joinPath (normPath a) "FSA029-Schema.xsd") "Main XSD"]⟩
          | .ok xsd_tree =>
            match load_xml env (joinPath (normPath a) "CommonTypes-Schema.xsd") "CommonTypes XSD" with
            | .error e =>
                ⟨2, [], some e, statEvents a b ++
                  [parseEvent (joinPath (normPath a) "FSA029-Schema.xsd") "Main XSD",
                   parseEvent (joinPath (normPath a) "CommonTypes-Schema.xsd") "CommonTypes XSD"]⟩
            | .ok _ =>
              match load_xml env (normPath b) "Submission" with
              | .error e =>
                  ⟨2, [], some e, statEvents a b ++
                    [parseEvent (joinPath (normPath a) "FSA029-Schema.xsd") "Main XSD",
                     parseEvent (joinPath (normPath a) "CommonTypes-Schema.xsd") "CommonTypes XSD",
                     parseEvent (normPath b) "Submission"]⟩
              | .ok xml_doc =>
                match rewrite_schema_imports_in_memory (env.resolve (normPath a)) xsd_tree with
                | .error e =>
                    ⟨2, [], some e, statEvents a b ++
                      [parseEvent (joinPath (normPath a) "FSA029-Schema.xsd") "Main XSD",
                       parseEvent (joinPath (normPath a) "CommonTypes-Schema.xsd") "CommonTypes XSD",
                       parseEvent (normPath b) "Submission"]⟩
                | .ok rewritten =>
                  match (compile_schema env rewritten).1 with
                  | .error e =>
                      ⟨2, [], some e, statEvents a b ++
                        [parseEvent (joinPath (normPath a) "FSA029-Schema.xsd") "Main XSD",
                         parseEvent (joinPath (normPath a) "CommonTypes-Schema.xsd") "CommonTypes XSD",
                         parseEvent (normPath b) "Submission"] ++ (compile_schema env rewritten).2⟩
                  | .ok schema =>
                    if env.validateDoc schema xml_doc then
                      ⟨0, [], none, statEvents a b ++
                        [parseEvent (joinPath (normPath a) "FSA029-Schema.xsd") "Main XSD",
                         parseEvent (joinPath (normPath a) "CommonTypes-Schema.xsd") "CommonTypes XSD",
                         parseEvent (normPath b) "Submission"] ++ (compile_schema env rewritten).2 ++ [.docValidateCall]⟩
                    else
                      ⟨1, env.error_log schema xml_doc, none, statEvents a b ++
                        [parseEvent (joinPath (normPath a) "FSA029-Schema.xsd") "Main XSD",
                         parseEvent (joinPath (normPath a) "CommonTypes-Schema.xsd") "CommonTypes XSD",
                         parseEvent (normPath b) "Submission"] ++ (compile_schema env rewritten).2 ++ [.docValidateCall]⟩
        else ⟨2, [], some (.missingFile (normPath b)),
          [.statDir (normPath a),
           .statFile (joinPath (normPath a) "FSA029-Schema.xsd"),
           .statFile (joinPath (normPath a) "CommonTypes-Schema.xsd"),
           .statFile (normPath b)]⟩
      else ⟨2, [], some (.missingFile (joinPath (normPath a) "CommonTypes-Schema.xsd")),
        [.statDir (normPath a),
         .statFile (joinPath (normPath a) "FSA029-Schema.xsd"),
         .statFile (joinPath (normPath a) "CommonTypes-Schema.xsd")]⟩
    else ⟨2, [], some (.missingFile (joinPath (normPath a) "FSA029-Schema.xsd")),
      [.statDir (normPath a),
       .statFile (joinPath (normPath a) "FSA029-Schema.xsd")]⟩
  else ⟨2, [], some (.notADirectory (normPath a)), [.statDir (normPath a)]⟩

/-- The semantic content of a run, stripped of exit codes and traces: the
compiled schema and the loaded submission when every stage up to compilation
succeeds, `none` when any operational stage fails.  `validate`'s tri-state
exit code is characterized against this. -/
def pipelineSchemaDoc (env : Env σ) (a b : String) : Option (σ × Element) :=
  if containsMarker (normPath a) || containsMarker (normPath b) then none
  else if env.is_dir (normPath a) then
    if env.is_file (joinPath (normPath a) "FSA029-Schema.xsd") then
      if env.is_file (joinPath (normPath a) "CommonTypes-Schema.xsd") then
        if env.is_file (normPath b) then
          match load_xml env (joinPath (normPath a) "FSA029-Schema.xsd") "Main XSD" with
          | .error _ => none
          | .ok xsd_tree =>
            match load_xml env (joinPath (normPath a) "CommonTypes-Schema.xsd") "CommonTypes XSD" with
            | .error _ => none
            | .ok _ =>
              match load_xml env (normPath b) "Submission" with
              | .error _ => none
              | .ok xml_doc =>
                match rewrite_schema_imports_in_memory (env.resolve (normPath a)) xsd_tree with
                | .error _ => none
                | .ok rewritten =>
                  match (compile_schema env rewritten).1 with
                  | .error _ => none
                  | .ok schema => some (schema, xml_doc)
        else none
      else none
    else none
  else none

/-- The parser configuration an event carries, when it is a parse event. -/
def eventCfg : Event → Option XMLParserCfg
  | .parseFile cfg _ _ => some cfg
  | .parseBytes cfg => some cfg
  | _ => none

/-- Whether an event is an XML parse (of a file or of serialized bytes). -/
def isParseEvent : Event → Bool
  | .parseFile _ _ _ => true
  | .parseBytes _ => true
  | _ => false

/-- Boolean error test for `Except`. -/
def isErrB : Except α β → Bool
  | .error _ => true
  | .ok _ => false

/-! ## Concrete fixtures for witnesses and counterexamples -/

/-- Spec-side definition for comparison (C1): the file name of a location
extracted independently of separator style, i.e. the final segment after
splitting on both `/` and `\`, dropping empty and `"."` pieces — the spec's
words, not the code's `Path(loc).name`. -/
def sepIndepName (s : String) : String :=
  ⟨((((splitOnChar '/' s.data).flatMap (splitOnChar '\\')).filter
      (fun seg => !(seg = ([] : List Char)) && !(seg = ['.']))).getLastD [])⟩

/-- Final `/`-separated segment of a string (used to inspect the rewritten
URIs). -/
def finalSegment (s : String) : String :=
  ⟨(splitOnChar '/' s.data).getLastD []⟩

/-- Views of the tree a successful rewrite returns (empty list when the
rewrite raises). -/
def rewrittenViews (dirSegs : List String) (t : Element) : List RefView :=
  match rewrite_schema_imports_in_memory dirSegs t with
  | .ok t' => refViewsBelow t'
  | .error _ => []

/-- A backslash-form marker location: under POSIX `Path(loc).name` the whole
string is the "file name" because `\` does not separate. -/
def locC1 : String := "ext\\CommonTypes\\v14\\CommonTypes-Schema.xsd"

/-- Trusted directory segments for the C1 counterexample. -/
def dC1 : List String := ["srv", "schemas"]

/-- Schema tree for the C1 counterexample: one `xs:import` whose location
matches the backward-slash marker. -/
def tC1 : Element :=
  .node XS_NS "schema" []
    [.node XS_NS "import" [("schemaLocation", locC1)] []]

/-- Trusted directory for the C10 counterexample: its resolved file URI
`file:///lib/CommonTypes/v14` does not contain the marker (no trailing
slash), yet every location rewritten under it does. -/
def dC10 : List String := ["lib", "CommonTypes", "v14"]

/-- Marker-matching location for the C10 counterexample. -/
def locC10 : String :=
  "http://regulator.example/CommonTypes/v14/CommonTypes-Schema.xsd"

/-- Schema tree for the C10 counterexample. -/
def tC10 : Element :=
  .node XS_NS "schema" []
    [.node XS_NS "import" [("schemaLocation", locC10)] []]

/-- Trusted directory segments for the C1/C10 witnesses. -/
def dW1 : List String := ["srv", "schemas"]

/-- Witness tree: one marked import (forward-slash form), one untouched
local include, one import without a location. -/
def tW1 : Element :=
  .node XS_NS "schema" []
    [.node XS_NS "import"
       [("namespace", "urn:fsa"),
        ("schemaLocation", "http://x/CommonTypes/v14/CommonTypes-Schema.xsd")] [],
     .node XS_NS "include" [("schemaLocation", "local.xsd")] [],
     .node XS_NS "import" [] []]

/-- Trusted directory segments for the C10 witness. -/
def dW10 : List String := ["opt", "schemas"]

/-- Witness tree for C10. -/
def tW10 : Element :=
  .node XS_NS "schema" []
    [.node XS_NS "redefine"
       [("schemaLocation", "..\\CommonTypes\\v14\\CommonTypes-Schema.xsd")] []]

/-- An arbitrary element used by the test environments. -/
def elemA : Element := .node XS_NS "schema" [] []

/-- A second, structurally different element (same serialization under the
constant-serializer test environment). -/
def elemB : Element := .node XS_NS "import" [("schemaLocation", "x.xsd")] []

/-- All-succeeding test environment (schema objects are `Unit`). -/
def testEnv : Env Unit :=
  ⟨fun _ _ => .ok elemA, fun _ => true, fun _ => true,
   fun _ => ["srv", "schemas"], fun _ _ _ => [60], fun _ _ => elemA,
   fun _ => .ok (), fun _ _ => true, fun _ _ => []⟩

/-- A concrete compiler diagnostic. -/
def diag0 : Diagnostic := ⟨3, 1, "bad type definition"⟩

/-- Test environment whose schema compilation fails with one diagnostic. -/
def envCF : Env Unit :=
  ⟨fun _ _ => .ok elemA, fun _ => true, fun _ => true,
   fun _ => ["srv", "schemas"], fun _ _ _ => [60], fun _ _ => elemA,
   fun _ => .error [diag0], fun _ _ => true, fun _ _ => []⟩

/-! ## Substring search: `containsSeq` against explicit decompositions -/

theorem startsWithSeq_iff {p s : List Char} :
    startsWithSeq p s = true ↔ ∃ t, s = p ++ t := by
  induction p generalizing s with
  | nil => simp [startsWithSeq]
  | cons a ps ih =>
    cases s with
    | nil => simp [startsWithSeq]
    | cons b bs =>
      simp only [startsWithSeq, Bool.and_eq_true, decide_eq_true_eq, ih,
        List.cons_append, List.cons.injEq]
      constructor
      · rintro ⟨rfl, t, rfl⟩; exact ⟨t, rfl, rfl⟩
      · rintro ⟨t, rfl, rfl⟩; exact ⟨rfl, t, rfl⟩

theorem containsSeq_iff {p s : List Char} :
    containsSeq p s = true ↔ ∃ u v, s = u ++ p ++ v := by
  induction s with
  | nil =>
    simp only [containsSeq, startsWithSeq_iff]
    constructor
    · rintro ⟨t, ht⟩
      exact ⟨[], t, by simpa using ht⟩
    · rintro ⟨u, v, huv⟩
      rcases List.append_eq_nil.mp huv.symm with ⟨h1, h2⟩
      rcases List.append_eq_nil.mp h1 with ⟨rfl, rfl⟩
      exact ⟨[], by simp⟩
  | cons c cs ih =>
    simp only [containsSeq, Bool.or_eq_true, startsWithSeq_iff, ih]
    constructor
    · rintro (⟨t, ht⟩ | ⟨u, v, huv⟩)
      · exact ⟨[], t, by simpa using ht⟩
      · exact ⟨c :: u, v, by simp [huv]⟩
    · rintro ⟨u, v, huv⟩
      cases u with
      | nil => exact Or.inl ⟨v, by simpa using huv⟩
      | cons a us =>
        rcases List.cons.injEq .. ▸ huv with ⟨rfl, h2⟩
        exact Or.inr ⟨us, v, by simpa using h2⟩

theorem containsSeq_append_of_left {p x : List Char} (y : List Char)
    (h : containsSeq p x = true) : containsSeq p (x ++ y) = true := by
  rcases containsSeq_iff.mp h with ⟨u, v, rfl⟩
  exact containsSeq_iff.mpr ⟨u, v ++ y, by simp⟩

theorem mem_of_containsSeq {p s : List Char} {c : Char}
    (h : containsSeq p s = true) (hc : c ∈ p) : c ∈ s := by
  rcases containsSeq_iff.mp h with ⟨u, v, rfl⟩
  simp [hc]

theorem containsSeq_append_elim {p₀ : List Char} {ch : Char} {x y : List Char}
    (hy : ch ∉ y) (h : containsSeq (p₀ ++ [ch]) (x ++ y) = true) :
    containsSeq (p₀ ++ [ch]) x = true := by
  rcases containsSeq_iff.mp h with ⟨u, v, huv⟩
  by_cases hle : u.length + (p₀ ++ [ch]).length ≤ x.length
  · apply containsSeq_iff.mpr
    refine ⟨u, x.drop (u.length + (p₀ ++ [ch]).length), ?_⟩
    have h2 : (x ++ y).take (u.length + (p₀ ++ [ch]).length)
        = u ++ (p₀ ++ [ch]) := by
      rw [huv]
      have := List.take_left (u ++ (p₀ ++ [ch])) v
      simpa [List.length_append, List.append_assoc] using this
    have h1 : (x ++ y).take (u.length + (p₀ ++ [ch]).length)
        = x.take (u.length + (p₀ ++ [ch]).length) := by
      rw [List.take_append_eq_append_take, Nat.sub_eq_zero_of_le hle]
      simp
    calc x = x.take (u.length + (p₀ ++ [ch]).length)
            ++ x.drop (u.length + (p₀ ++ [ch]).length) := (List.take_append_drop ..).symm
      _ = u ++ (p₀ ++ [ch]) ++ x.drop (u.length + (p₀ ++ [ch]).length) := by
            rw [← h1, h2]
  · exfalso
    apply hy
    have hxle : x.length ≤ u.length + p₀.length := by
      simp only [List.length_append, List.length_cons, List.length_nil] at hle
      omega
    have hdropL : (x ++ y).drop (u.length + p₀.length)
        = y.drop (u.length + p₀.length - x.length) := by
      rw [List.drop_append_eq_append_drop, List.drop_eq_nil_of_le hxle]
      simp
    have hdropR : (x ++ y).drop (u.length + p₀.length) = ch :: v := by
      rw [huv]
      have hre : u ++ (p₀ ++ [ch]) ++ v = (u ++ p₀) ++ (ch :: v) := by
        simp [List.append_assoc]
      rw [hre]
      have h0 := List.drop_left (u ++ p₀) (ch :: v)
      rw [List.length_append] at h0
      exact h0
    have : ch :: v = y.drop (u.length + p₀.length - x.length) := by
      rw [← hdropR, hdropL]
    have hmem : ch ∈ y.drop (u.length + p₀.length - x.length) := by
      rw [← this]; exact List.mem_cons_self ..
    exact (List.drop_sublist ..).mem hmem

/-! ## Path components: `splitOnChar` -/

theorem splitOnChar_ne_nil (sep : Char) (l : List Char) :
    splitOnChar sep l ≠ [] := by
  cases l with
  | nil => simp [splitOnChar]
  | cons c cs =>
    simp only [splitOnChar]
    cases hsplit : splitOnChar sep cs with
    | nil => simp
    | cons g gs =>
      dsimp only
      split <;> simp

theorem sep_not_mem_splitOnChar {sep : Char} {l part : List Char}
    (h : part ∈ splitOnChar sep l) : sep ∉ part := by
  induction l generalizing part with
  | nil =>
    simp only [splitOnChar, List.mem_singleton] at h
    subst h; simp
  | cons c cs ih =>
    simp only [splitOnChar] at h
    cases hsplit : splitOnChar sep cs with
    | nil => exact absurd hsplit (splitOnChar_ne_nil sep cs)
    | cons g gs =>
      simp only [hsplit] at h
      by_cases hc : c = sep
      · rw [if_pos hc] at h
        rcases List.mem_cons.mp h with rfl | hm
        · simp
        · exact ih (hsplit ▸ hm)
      · rw [if_neg hc] at h
        rcases List.mem_cons.mp h with rfl | hm
        · intro hmem
          rcases List.mem_cons.mp hmem with hcc | hg
          · exact hc hcc.symm
          · exact ih (hsplit ▸ List.mem_cons_self g gs) hg
        · exact ih (hsplit ▸ List.mem_cons.mpr (Or.inr hm))

theorem splitOnChar_of_not_mem {sep : Char} {l : List Char} (h : sep ∉ l) :
    splitOnChar sep l = [l] := by
  induction l with
  | nil => rfl
  | cons c cs ih =>
    have hc : ¬(c = sep) := by
      rintro rfl; exact h (List.mem_cons_self ..)
    have hcs : sep ∉ cs := fun hm => h (List.mem_cons.mpr (Or.inr hm))
    simp only [splitOnChar, ih hcs, if_neg hc]

theorem two_le_length_splitOnChar {sep : Char} {l : List Char} (h : sep ∈ l) :
    2 ≤ (splitOnChar sep l).length := by
  induction l with
  | nil => simp at h
  | cons c cs ih =>
    simp only [splitOnChar]
    cases hsplit : splitOnChar sep cs with
    | nil => exact absurd hsplit (splitOnChar_ne_nil sep cs)
    | cons g gs =>
      dsimp only
      by_cases hc : c = sep
      · simp [if_pos hc]
      · rw [if_neg hc]
        rcases List.mem_cons.mp h with hcc | hm
        · exact absurd hcc.symm hc
        · have h2 := ih hm
          rw [hsplit] at h2
          simpa using h2

theorem getLastD_mem_or {α : Type _} (l : List α) (d : α) :
    l.getLastD d ∈ l ∨ l.getLastD d = d := by
  induction l generalizing d with
  | nil => simp
  | cons a l ih =>
    rw [List.getLastD_cons]
    rcases ih a with h | h
    · exact Or.inl (List.mem_cons.mpr (Or.inr h))
    · rw [h]; exact Or.inl (List.mem_cons_self ..)

theorem posixName_no_slash (s : String) : '/' ∉ (posixName s).data := by
  show '/' ∉ posixNameChars s.data
  unfold posixNameChars
  rcases getLastD_mem_or
      ((splitOnChar '/' s.data).filter
        (fun seg => !(seg = ([] : List Char)) && !(seg = ['.']))) [] with h | h
  · exact sep_not_mem_splitOnChar (List.mem_of_mem_filter h)
  · rw [h]; simp

theorem getLastD_splitOnChar_append {q : List Char} (hq : '/' ∉ q)
    (B dflt : List Char) :
    (splitOnChar '/' (B ++ '/' :: q)).getLastD dflt = q := by
  induction B generalizing dflt with
  | nil =>
    simp only [List.nil_append, splitOnChar, splitOnChar_of_not_mem hq,
      if_pos rfl]
    simp [List.getLastD_cons]
  | cons b B' ih =>
    simp only [List.cons_append, splitOnChar]
    cases hsplit : splitOnChar '/' (B' ++ '/' :: q) with
    | nil => exact absurd hsplit (splitOnChar_ne_nil '/' (B' ++ '/' :: q))
    | cons g gs =>
      dsimp only
      by_cases hb : b = '/'
      · rw [if_pos hb, List.getLastD_cons]
        have h0 := ih []
        rw [hsplit] at h0
        exact h0
      · rw [if_neg hb, List.getLastD_cons]
        have h2 : 2 ≤ (splitOnChar '/' (B' ++ '/' :: q)).length :=
          two_le_length_splitOnChar (by simp)
        rw [hsplit] at h2
        cases gs with
        | nil => simp at h2
        | cons g1 gs1 =>
          have h0 := ih (b :: g)
          rw [hsplit] at h0
          simp only [List.getLastD_cons] at h0 ⊢
          exact h0

theorem finalSegment_of_slash_free {B q : List Char} (hq : '/' ∉ q) :
    finalSegment ⟨B ++ '/' :: q⟩ = (⟨q⟩ : String) := by
  show (⟨(splitOnChar '/' (B ++ '/' :: q)).getLastD []⟩ : String) = ⟨q⟩
  rw [getLastD_splitOnChar_append hq]

/-! ## Percent-quoting: character-level facts -/

theorem isSafeByte_lt_128 {n : Nat} (h : isSafeByte n = true) : n < 128 := by
  simp only [isSafeByte, Bool.or_eq_true, Bool.and_eq_true,
    decide_eq_true_eq] at h
  omega

theorem hexDigitChar_ne {m : Nat} (hm : m < 16) :
    hexDigitChar m ≠ '\\' ∧ hexDigitChar m ≠ '/' := by
  have H : ∀ k, k < 16 → hexDigitChar k ≠ '\\' ∧ hexDigitChar k ≠ '/' := by
    decide
  exact H m hm

theorem backslash_not_mem_quoteByte (n : Nat) : '\\' ∉ quoteByte n := by
  by_cases hs : isSafeByte n = true
  · have h128 := isSafeByte_lt_128 hs
    have H : ∀ m, m < 128 → isSafeByte m = true → '\\' ∉ quoteByte m := by
      decide
    exact H n h128 hs
  · unfold quoteByte
    rw [if_neg hs]
    intro hmem
    rcases List.mem_cons.mp hmem with h | hmem
    · exact absurd h (by decide)
    rcases List.mem_cons.mp hmem with h | hmem
    · exact (hexDigitChar_ne (Nat.mod_lt _ (by omega))).1 h.symm
    rcases List.mem_cons.mp hmem with h | hmem
    · exact (hexDigitChar_ne (Nat.mod_lt _ (by omega))).1 h.symm
    · simp at hmem

theorem eq_47_of_slash_mem_quoteByte {n : Nat} (h : '/' ∈ quoteByte n) :
    n = 47 := by
  by_cases hs : isSafeByte n = true
  · have h128 := isSafeByte_lt_128 hs
    have H : ∀ m, m < 128 → isSafeByte m = true → '/' ∈ quoteByte m → m = 47 := by
      decide
    exact H n h128 hs h
  · exfalso
    unfold quoteByte at h
    rw [if_neg hs] at h
    rcases List.mem_cons.mp h with h | h
    · exact absurd h (by decide)
    rcases List.mem_cons.mp h with h | h
    · exact (hexDigitChar_ne (Nat.mod_lt _ (by omega))).2 h.symm
    rcases List.mem_cons.mp h with h | h
    · exact (hexDigitChar_ne (Nat.mod_lt _ (by omega))).2 h.symm
    · simp at h

theorem mem_charUtf8 {b : Nat} {c : Char} (h : b ∈ charUtf8 c) :
    b = c.toNat ∧ c.toNat < 128 ∨ 128 ≤ b := by
  unfold charUtf8 at h
  split at h
  · simp only [List.mem_singleton] at h
    subst h
    left; exact ⟨rfl, by omega⟩
  · split at h
    · right
      rcases List.mem_cons.mp h with rfl | h
      · omega
      rcases List.mem_cons.mp h with rfl | h
      · omega
      · simp at h
    · split at h
      · right
        rcases List.mem_cons.mp h with rfl | h
        · omega
        rcases List.mem_cons.mp h with rfl | h
        · omega
        rcases List.mem_cons.mp h with rfl | h
        · omega
        · simp at h
      · right
        rcases List.mem_cons.mp h with rfl | h
        · omega
        rcases List.mem_cons.mp h with rfl | h
        · omega
        rcases List.mem_cons.mp h with rfl | h
        · omega
        rcases List.mem_cons.mp h with rfl | h
        · omega
        · simp at h

theorem char_eq_slash_of_toNat {c : Char} (h : c.toNat = 47) : c = '/' := by
  have h1 := Char.ofNat_toNat c
  rw [h] at h1
  rw [← h1]

theorem slash_not_mem_quoteAll {l : List Char} (hl : '/' ∉ l) :
    '/' ∉ quoteAll l := by
  intro hmem
  unfold quoteAll at hmem
  rcases List.mem_flatMap.mp hmem with ⟨b, hb, hqb⟩
  have hb47 : b = 47 := eq_47_of_slash_mem_quoteByte hqb
  subst hb47
  rcases List.mem_flatMap.mp hb with ⟨c, hc, hcb⟩
  rcases mem_charUtf8 hcb with ⟨heq, _⟩ | hge
  · exact hl (char_eq_slash_of_toNat heq.symm ▸ hc)
  · omega

theorem backslash_not_mem_quoteAll (l : List Char) : '\\' ∉ quoteAll l := by
  intro hmem
  unfold quoteAll at hmem
  rcases List.mem_flatMap.mp hmem with ⟨b, _, hqb⟩
  exact backslash_not_mem_quoteByte b hqb

theorem quoteAll_append (a b : List Char) :
    quoteAll (a ++ b) = quoteAll a ++ quoteAll b := by
  unfold quoteAll
  rw [List.flatMap_append, List.flatMap_append]

/-! ## File URIs built by the rewrite: decomposition and marker-freedom -/

theorem pathChars_append_single (d : List String) (fn : String) :
    pathChars (d ++ [fn]) =
      (pathChars d ++ (if d.isEmpty then [] else ['/'])) ++ fn.data := by
  cases d with
  | nil => simp [pathChars]
  | cons x d' =>
    simp only [pathChars, List.cons_append, List.isEmpty_cons, if_neg]
    rw [← List.cons_append, List.flatMap_append]
    simp

theorem uriChars_append_single (d : List String) (fn : String) :
    uriChars (d ++ [fn]) = dir_uri_slash_chars d ++ quoteAll fn.data := by
  unfold uriChars dir_uri_slash_chars
  rw [pathChars_append_single, quoteAll_append, quoteAll_append]
  simp [List.append_assoc]

theorem dir_uri_slash_chars_eq (d : List String) :
    dir_uri_slash_chars d =
      uriChars d ++ (if d.isEmpty then [] else ['/']) := by
  unfold dir_uri_slash_chars uriChars
  rw [quoteAll_append]
  cases d with
  | nil => simp [quoteAll]
  | cons x d' =>
    have hq : quoteAll ['/'] = ['/'] := by decide
    simp [hq, List.append_assoc]

theorem dir_uri_slash_chars_dropLast (d : List String) (hd : d ≠ []) :
    dir_uri_slash_chars d =
      dir_uri_slash_chars d.dropLast ++
        quoteAll ((d.getLast hd).data ++ ['/']) := by
  conv_lhs => rw [← List.dropLast_append_getLast hd]
  unfold dir_uri_slash_chars
  rw [pathChars_append_single]
  have hne : (d.dropLast ++ [d.getLast hd]).isEmpty = false := by
    simp
  rw [hne]
  simp only [if_neg Bool.false_ne_true]
  rw [List.append_assoc, quoteAll_append]
  simp [List.append_assoc]

theorem bwd_not_in_uriChars (segs : List String) :
    containsSeq bwdMarker.data (uriChars segs) = false := by
  rw [Bool.eq_false_iff]
  intro hcon
  have hmem : '\\' ∈ uriChars segs := mem_of_containsSeq hcon (by decide)
  unfold uriChars at hmem
  rcases List.mem_append.mp hmem with h | h
  · exact absurd h (by decide)
  · exact backslash_not_mem_quoteAll _ h

theorem fwd_not_in_uriChars_self (d : List String)
    (hd : containsSeq fwdMarker.data (dir_uri_slash_chars d) = false) :
    containsSeq fwdMarker.data (uriChars d) = false := by
  rw [Bool.eq_false_iff]
  intro hcon
  have h1 := containsSeq_append_of_left
    (if d.isEmpty then [] else ['/']) hcon
  rw [← dir_uri_slash_chars_eq] at h1
  rw [hd] at h1
  exact Bool.false_ne_true h1

theorem fwd_not_in_uriChars_of_dir (d : List String) (fn : String)
    (hd : containsSeq fwdMarker.data (dir_uri_slash_chars d) = false)
    (hfn : '/' ∉ fn.data) :
    containsSeq fwdMarker.data (uriChars (resolveSegs d fn)) = false := by
  have hsplitm : fwdMarker.data = "/CommonTypes/v14".data ++ ['/'] := by decide
  unfold resolveSegs
  split
  · exact fwd_not_in_uriChars_self d hd
  · split
    · by_cases hdn : d = []
      · subst hdn
        exact fwd_not_in_uriChars_self [] (by simpa using hd)
      · rw [Bool.eq_false_iff]
        intro hcon
        have h1 : containsSeq fwdMarker.data
            (dir_uri_slash_chars d.dropLast) = true := by
          have h0 := containsSeq_append_of_left
            (if d.dropLast.isEmpty then [] else ['/']) hcon
          rw [← dir_uri_slash_chars_eq] at h0
          exact h0
        have h2 : containsSeq fwdMarker.data (dir_uri_slash_chars d) = true := by
          rw [dir_uri_slash_chars_dropLast d hdn]
          exact containsSeq_append_of_left _ h1
        rw [hd] at h2
        exact Bool.false_ne_true h2
    · rw [Bool.eq_false_iff]
      intro hcon
      rw [uriChars_append_single, hsplitm] at hcon
      have h1 := containsSeq_append_elim (slash_not_mem_quoteAll hfn) hcon
      rw [← hsplitm, hd] at h1
      exact Bool.false_ne_true h1

theorem local_uri_marker_free (d : List String) (fn : String)
    (hd : containsSeq fwdMarker.data (dir_uri_slash_chars d) = false)
    (hfn : '/' ∉ fn.data) :
    containsMarker (local_uri d fn) = false := by
  have hfwd := fwd_not_in_uriChars_of_dir d fn hd hfn
  have hbwd := bwd_not_in_uriChars (resolveSegs d fn)
  show (containsSeq fwdMarker.data (uriChars (resolveSegs d fn)) ||
    containsSeq bwdMarker.data (uriChars (resolveSegs d fn))) = false
  rw [hfwd, hbwd]
  rfl

/-! ## Behaviour of the per-node transform on attribute lists -/

theorem getAttr_setAttrList (attrs : List (String × String)) (k v : String) :
    getAttr (setAttrList attrs k v) k = some v := by
  induction attrs with
  | nil => simp [setAttrList, getAttr]
  | cons p rest ih =>
    rcases p with ⟨k0, v0⟩
    by_cases hk : k0 = k
    · simp [setAttrList, hk, getAttr]
    · simp [setAttrList, hk, getAttr, ih]

theorem eraseVals_setAttrList (attrs : List (String × String)) (v : String)
    (h : (getAttr attrs "schemaLocation").isSome = true) :
    eraseVals (setAttrList attrs "schemaLocation" v) = eraseVals attrs := by
  induction attrs with
  | nil => simp [getAttr] at h
  | cons p rest ih =>
    rcases p with ⟨k0, v0⟩
    by_cases hk : k0 = "schemaLocation"
    · subst hk
      simp [setAttrList, eraseVals]
    · have h' : (getAttr rest "schemaLocation").isSome = true := by
        simpa [getAttr, hk] using h
      simp [setAttrList, hk, eraseVals] at ih ⊢
      exact ih h'

theorem eraseVals_locTransform (d : List String)
    (attrs : List (String × String)) :
    eraseVals (locTransform d attrs) = eraseVals attrs := by
  unfold locTransform
  cases hg : getAttr attrs "schemaLocation" with
  | none => rfl
  | some loc =>
    dsimp only
    by_cases h1 : loc = ""
    · rw [if_pos h1]
    · rw [if_neg h1]
      by_cases h2 : containsMarker loc = true
      · rw [if_pos h2]
        exact eraseVals_setAttrList attrs _ (by rw [hg]; rfl)
      · rw [if_neg h2]

mutual

theorem eraseElem_rewriteElem (d : List String) :
    ∀ e : Element, eraseElem (rewriteElem d e) = eraseElem e
  | .node ns ln attrs cs => by
    simp only [rewriteElem, transformRef]
    by_cases h : isRefName ns ln = true
    · rw [if_pos h]
      simp only [eraseElem, if_pos h, eraseVals_locTransform,
        eraseList_rewriteList d cs]
    · rw [if_neg h]
      simp only [eraseElem, if_neg h, eraseList_rewriteList d cs]

theorem eraseList_rewriteList (d : List String) :
    ∀ es : List Element, eraseList (rewriteList d es) = eraseList es
  | [] => rfl
  | c :: cs => by
    simp only [rewriteList, eraseList, eraseElem_rewriteElem d c,
      eraseList_rewriteList d cs]

end

mutual

theorem refViewsElem_rewriteElem (d : List String) :
    ∀ e : Element,
      refViewsElem (rewriteElem d e) = (refViewsElem e).map (viewTransform d)
  | .node ns ln attrs cs => by
    simp only [rewriteElem, transformRef]
    by_cases h : isRefName ns ln = true
    · rw [if_pos h]
      simp only [refViewsElem, if_pos h, List.map_append]
      rw [refViewsList_rewriteList d cs]
      simp [viewTransform]
    · rw [if_neg h]
      simp only [refViewsElem, if_neg h, List.map_append]
      rw [refViewsList_rewriteList d cs]
      simp

theorem refViewsList_rewriteList (d : List String) :
    ∀ es : List Element,
      refViewsList (rewriteList d es) = (refViewsList es).map (viewTransform d)
  | [] => rfl
  | c :: cs => by
    simp only [rewriteList, refViewsList, List.map_append,
      refViewsElem_rewriteElem d c, refViewsList_rewriteList d cs]

end

theorem refViewsBelow_rewriteTree (d : List String) (t : Element) :
    refViewsBelow (rewriteTree d t) = (refViewsBelow t).map (viewTransform d) := by
  cases t with
  | node ns ln attrs cs =>
    simp only [rewriteTree, refViewsBelow]
    exact refViewsList_rewriteList d cs

theorem viewTransform_eq_of_unmarked {v : RefView} (d : List String)
    (h : containsMarker (viewLoc v) = false) : viewTransform d v = v := by
  rcases v with ⟨ns, ln, attrs⟩
  unfold viewTransform locTransform
  dsimp only
  cases hg : getAttr attrs "schemaLocation" with
  | none => rfl
  | some loc =>
    have hloc : viewLoc (ns, ln, attrs) = loc := by simp [viewLoc, hg]
    rw [hloc] at h
    dsimp only
    by_cases h1 : loc = ""
    · rw [if_pos h1]
    · rw [if_neg h1, if_neg (by simp [h])]

theorem viewTransform_marker_free (d : List String)
    (hd : containsSeq fwdMarker.data (dir_uri_slash_chars d) = false)
    (v : RefView) :
    containsMarker (viewLoc (viewTransform d v)) = false := by
  rcases v with ⟨ns, ln, attrs⟩
  unfold viewTransform locTransform
  dsimp only
  cases hg : getAttr attrs "schemaLocation" with
  | none =>
    show containsMarker (viewLoc (ns, ln, attrs)) = false
    simp [viewLoc, hg]
    decide
  | some loc =>
    dsimp only
    by_cases h1 : loc = ""
    · rw [if_pos h1]
      show containsMarker (viewLoc (ns, ln, attrs)) = false
      simp [viewLoc, hg, h1]
      decide
    · rw [if_neg h1]
      by_cases h2 : containsMarker loc = true
      · rw [if_pos h2]
        show containsMarker
          (viewLoc (ns, ln,
            setAttrList attrs "schemaLocation" (local_uri d (posixName loc)))) = false
        have hv : viewLoc (ns, ln,
            setAttrList attrs "schemaLocation" (local_uri d (posixName loc)))
            = local_uri d (posixName loc) := by
          simp [viewLoc, getAttr_setAttrList]
        rw [hv]
        exact local_uri_marker_free d _ hd (posixName_no_slash loc)
      · rw [if_neg h2]
        show containsMarker (viewLoc (ns, ln, attrs)) = false
        have hloc : viewLoc (ns, ln, attrs) = loc := by simp [viewLoc, hg]
        rw [hloc]
        exact Bool.eq_false_iff.mpr h2

theorem anyMarked_rewriteTree_eq_false (d : List String) (t : Element)
    (hd : containsSeq fwdMarker.data (dir_uri_slash_chars d) = false) :
    anyMarked (rewriteTree d t) = false := by
  unfold anyMarked
  rw [refViewsBelow_rewriteTree, List.any_map]
  apply List.any_eq_false.mpr
  intro v _
  simp only [Function.comp]
  rw [viewTransform_marker_free d hd v]
  simp

theorem rewrite_ok_of_dir (d : List String) (t : Element)
    (hd : containsSeq fwdMarker.data (dir_uri_slash_chars d) = false) :
    rewrite_schema_imports_in_memory d t = .ok (rewriteTree d t) := by
  simp [rewrite_schema_imports_in_memory, anyMarked_rewriteTree_eq_false d t hd]

theorem fwd_free_of_marker_free {d : List String}
    (hd : containsMarker (dir_uri_slash d) = false) :
    containsSeq fwdMarker.data (dir_uri_slash_chars d) = false := by
  have h0 : (containsSeq fwdMarker.data (dir_uri_slash_chars d) ||
      containsSeq bwdMarker.data (dir_uri_slash_chars d)) = false := hd
  exact (Bool.or_eq_false_iff.mp h0).1

theorem viewLoc_viewTransform_of_marked (d : List String) {v : RefView}
    (h : containsMarker (viewLoc v) = true) :
    viewLoc (viewTransform d v) = local_uri d (posixName (viewLoc v)) := by
  rcases v with ⟨ns, ln, attrs⟩
  unfold viewTransform locTransform
  dsimp only
  cases hg : getAttr attrs "schemaLocation" with
  | none =>
    exfalso
    have h0 : viewLoc (ns, ln, attrs) = "" := by simp [viewLoc, hg]
    rw [h0] at h
    exact absurd h (by decide)
  | some loc =>
    have hloc : viewLoc (ns, ln, attrs) = loc := by simp [viewLoc, hg]
    rw [hloc] at h
    dsimp only
    by_cases h1 : loc = ""
    · exfalso
      rw [h1] at h
      exact absurd h (by decide)
    · rw [if_neg h1, if_pos h]
      have hv : viewLoc (ns, ln,
          setAttrList attrs "schemaLocation" (local_uri d (posixName loc)))
          = local_uri d (posixName loc) := by
        simp [viewLoc, getAttr_setAttrList]
      rw [hv, hloc]

theorem dir_uri_slash_chars_ends_slash (d : List String) :
    ∃ B, dir_uri_slash_chars d = B ++ ['/'] := by
  rw [dir_uri_slash_chars_eq]
  cases hd0 : d.isEmpty
  · exact ⟨uriChars d, by simp⟩
  · refine ⟨"file://".data, ?_⟩
    have hdnil : d = [] := by
      cases d with
      | nil => rfl
      | cons x xs => simp at hd0
    subst hdnil
    decide

/-- C2: after the rewrite pass, `rewrite_schema_imports_in_memory` re-traverses
the mutated tree (`rewriteTree dirSegs t`) and raises the rewrite-incomplete
error exactly when some reference node of that post-rewrite tree still has
the forbidden marker (either slash convention) in its `schemaLocation`;
otherwise it returns the post-rewrite tree.  The check is stated over the
result of the rewriting pass, i.e. it is an independent second traversal,
not a fact about the rewriting pass's own code path. -/
theorem C2_second_pass_check (d : List String) (t : Element) :
    (rewrite_schema_imports_in_memory d t = .error .rewriteIncomplete ↔
      ∃ v ∈ refViewsBelow (rewriteTree d t), containsMarker (viewLoc v) = true) ∧
    (rewrite_schema_imports_in_memory d t = .ok (rewriteTree d t) ↔
      ∀ v ∈ refViewsBelow (rewriteTree d t), containsMarker (viewLoc v) = false) := by
  unfold rewrite_schema_imports_in_memory
  by_cases h : anyMarked (rewriteTree d t) = true
  · have hex := h
    unfold anyMarked at hex
    rw [List.any_eq_true] at hex
    constructor
    · simp only [h, if_pos]
      constructor
      · intro _; exact hex
      · intro _; trivial
    · simp only [h, if_pos]
      constructor
      · intro hcon; exact absurd hcon (by simp)
      · intro hall
        rcases hex with ⟨v, hv, hm⟩
        rw [hall v hv] at hm
        exact absurd hm (by simp)
  · have hall : ∀ v ∈ refViewsBelow (rewriteTree d t),
        containsMarker (viewLoc v) = false := by
      have h0 : anyMarked (rewriteTree d t) = false := by
        simpa using h
      unfold anyMarked at h0
      rw [List.any_eq_false] at h0
      intro v hv
      simpa using h0 v hv
    constructor
    · simp only [if_neg h]
      constructor
      · intro hcon; exact absurd hcon (by simp)
      · intro hex
        rcases hex with ⟨v, hv, hm⟩
        rw [hall v hv] at hm
        exact absurd hm (by simp)
    · simp only [if_neg h]
      constructor
      · intro _; exact hall
      · intro _; trivial

/-- C3: the rewrite changes nothing except the `schemaLocation` values of
forbidden-marker reference nodes — masking only those values (`eraseElem`)
the post-rewrite tree equals the original, the reference nodes are in
bijection position by position, and any reference node whose location does
not contain the marker (in particular one with an absent or empty
`schemaLocation`, whose `viewLoc` is `""`) is exactly the node it was. -/
theorem C3_rewrite_locality (d : List String) (t : Element) :
    eraseElem (rewriteTree d t) = eraseElem t ∧
    (refViewsBelow (rewriteTree d t)).length = (refViewsBelow t).length ∧
    (∀ (i : Nat) (v : RefView), (refViewsBelow t)[i]? = some v →
      containsMarker (viewLoc v) = false →
      (refViewsBelow (rewriteTree d t))[i]? = some v) := by
  refine ⟨?_, ?_, ?_⟩
  · cases t with
    | node ns ln attrs cs =>
      simp only [rewriteTree, eraseElem, eraseList_rewriteList d cs]
  · rw [refViewsBelow_rewriteTree]
    simp
  · intro i v hv hm
    rw [refViewsBelow_rewriteTree, List.getElem?_map, hv]
    simp [viewTransform_eq_of_unmarked d hm]

/-- C3 witness: in the concrete tree `tW1` the unmarked `xs:include` node
(position 1) and the location-less `xs:import` node (position 2) survive the
rewrite byte for byte, and the masked trees agree. -/
theorem C3_rewrite_locality_witness :
    eraseElem (rewriteTree dW1 tW1) = eraseElem tW1 ∧
    (refViewsBelow (rewriteTree dW1 tW1))[1]? =
      some (XS_NS, "include", [("schemaLocation", "local.xsd")]) ∧
    (refViewsBelow (rewriteTree dW1 tW1))[2]? = some (XS_NS, "import", []) := by
  obtain ⟨h1, _, h3⟩ := C3_rewrite_locality dW1 tW1
  exact ⟨h1,
    h3 1 (XS_NS, "include", [("schemaLocation", "local.xsd")])
      (by decide) (by decide),
    h3 2 (XS_NS, "import", []) (by decide) (by decide)⟩

/-- C1 counterexample: the claim's "file name extracted independently of
separator style" is false for the code.  `Path(loc).name` under POSIX
pathlib does not treat `\` as a separator, so for the backslash-marker
location `locC1` the whole location string becomes the file name; the single
rewritten node's URI has a final segment (the percent-quoted whole string)
different from the separator-independent file name
`CommonTypes-Schema.xsd`. -/
theorem C1_counterexample :
    containsMarker locC1 = true ∧
    (rewrittenViews dC1 tC1).length = 1 ∧
    (rewrittenViews dC1 tC1).map (fun v => finalSegment (viewLoc v)) ≠
      [sepIndepName locC1] := by
  refine ⟨by decide, by decide, by decide⟩

/-- C1 (amended): provided the trusted directory's slash-terminated file URI
is marker-free, the rewrite succeeds; afterwards no reference node matches
the marker in either slash convention; every reference node whose original
location contained the marker now carries
`local_uri = (schema_dir / Path(loc).name).resolve().as_uri()` — which,
whenever `Path(loc).name` (the final `/`-separated segment under POSIX
semantics, not a separator-independent extraction) is an ordinary name, is
the trusted directory's URI followed by exactly the percent-quoted file
name as its final segment; and every other reference node is unchanged. -/
theorem C1_rewrite_completeness (d : List String) (t : Element)
    (hd : containsMarker (dir_uri_slash d) = false) :
    rewrite_schema_imports_in_memory d t = .ok (rewriteTree d t) ∧
    refViewsBelow (rewriteTree d t) = (refViewsBelow t).map (viewTransform d) ∧
    (∀ v ∈ refViewsBelow (rewriteTree d t), containsMarker (viewLoc v) = false) ∧
    (∀ (i : Nat) (v : RefView), (refViewsBelow t)[i]? = some v →
      containsMarker (viewLoc v) = true →
      ∃ v', (refViewsBelow (rewriteTree d t))[i]? = some v' ∧
        viewLoc v' = local_uri d (posixName (viewLoc v)) ∧
        (posixName (viewLoc v) ≠ "" → posixName (viewLoc v) ≠ "." →
          posixName (viewLoc v) ≠ ".." →
          (viewLoc v').data =
            dir_uri_slash_chars d ++ quoteAll (posixName (viewLoc v)).data ∧
          finalSegment (viewLoc v') =
            ⟨quoteAll (posixName (viewLoc v)).data⟩)) ∧
    (∀ (i : Nat) (v : RefView), (refViewsBelow t)[i]? = some v →
      containsMarker (viewLoc v) = false →
      (refViewsBelow (rewriteTree d t))[i]? = some v) := by
  have hfwd := fwd_free_of_marker_free hd
  refine ⟨rewrite_ok_of_dir d t hfwd, refViewsBelow_rewriteTree d t, ?_, ?_, ?_⟩
  · intro v hv
    rw [refViewsBelow_rewriteTree] at hv
    rcases List.mem_map.mp hv with ⟨w, _, rfl⟩
    exact viewTransform_marker_free d hfwd w
  · intro i v hv hm
    refine ⟨viewTransform d v, ?_, ?_, ?_⟩
    · rw [refViewsBelow_rewriteTree, List.getElem?_map, hv]
      rfl
    · exact viewLoc_viewTransform_of_marked d hm
    · intro h1 h2 h3
      have hres : resolveSegs d (posixName (viewLoc v)) =
          d ++ [posixName (viewLoc v)] := by
        simp [resolveSegs, h1, h2, h3]
      have hvl := viewLoc_viewTransform_of_marked d hm
      have hq : '/' ∉ (quoteAll (posixName (viewLoc v)).data) :=
        slash_not_mem_quoteAll (posixName_no_slash (viewLoc v))
      constructor
      · rw [hvl]
        show uriChars (resolveSegs d (posixName (viewLoc v))) = _
        rw [hres, uriChars_append_single]
      · rw [hvl]
        show finalSegment ⟨uriChars (resolveSegs d (posixName (viewLoc v)))⟩ = _
        rw [hres, uriChars_append_single]
        rcases dir_uri_slash_chars_ends_slash d with ⟨B, hB⟩
        rw [hB, List.append_assoc, List.singleton_append]
        exact finalSegment_of_slash_free hq
  · intro i v hv hm
    rw [refViewsBelow_rewriteTree, List.getElem?_map, hv]
    simp [viewTransform_eq_of_unmarked d hm]

/-- C1 witness: the concrete marker-free trusted directory `dW1` and the
mixed tree `tW1` instantiate the amended completeness theorem. -/
theorem C1_rewrite_completeness_witness :
    containsMarker (dir_uri_slash dW1) = false ∧
    rewrite_schema_imports_in_memory dW1 tW1 = .ok (rewriteTree dW1 tW1) :=
  ⟨by decide, (C1_rewrite_completeness dW1 tW1 (by decide)).1⟩

/-- C10 counterexample: the claim's hypothesis "the trusted directory's
resolved file-URI form contains no occurrence of the forbidden marker" holds
for `dC10` (`file:///lib/CommonTypes/v14`, no trailing slash, marker-free in
both slash conventions), yet `rewrite_schema_imports_in_memory` raises: every
location it rewrites gains the trailing-slash form
`file:///lib/CommonTypes/v14/...`, which the defensive second pass rejects. -/
theorem C10_counterexample :
    containsMarker (as_uri_abs dC10) = false ∧
    isErrB (rewrite_schema_imports_in_memory dC10 tC10) = true := by
  refine ⟨by decide, by decide⟩

/-- C10 (amended): for every trusted directory whose file URI *followed by a
path separator* (`dir_uri_slash`) is free of the forbidden marker in both
slash conventions, the rewrite never raises: the defensive second-pass error
branch is unreachable and the function returns the rewritten tree. -/
theorem C10_never_raises (d : List String) (t : Element)
    (hd : containsMarker (dir_uri_slash d) = false) :
    rewrite_schema_imports_in_memory d t = .ok (rewriteTree d t) :=
  rewrite_ok_of_dir d t (fwd_free_of_marker_free hd)

/-- C10 witness: concrete marker-free directory and a backslash-marker tree;
the rewrite returns normally. -/
theorem C10_never_raises_witness :
    containsMarker (dir_uri_slash dW10) = false ∧
    rewrite_schema_imports_in_memory dW10 tW10 = .ok (rewriteTree dW10 tW10) :=
  ⟨by decide, C10_never_raises dW10 tW10 (by decide)⟩

/-! ## Pipeline-level claims -/

theorem compile_schema_events {σ : Type} (env : Env σ) (t : Element) :
    (compile_schema env t).2 =
      [.serializeTree, .parseBytes make_secure_parser_cfg, .compileCall] := by
  unfold compile_schema
  split <;> rfl

/-- C7: `load_xml` returns a tree exactly when the secure parse of the source
succeeds with that tree (no partial tree on failure), fails with the
malformed-XML error exactly when lxml reports a syntax error (carrying the
kind label and the lxml detail), fails with the unreadable-source error
exactly when the source cannot be read (carrying the kind, the path and the
OS detail), and the two error shapes are distinct constructors carrying
different information.  The three parse outcomes model the two lxml
exception classes `load_xml` is written against; each is mapped, so no
modeled outcome escapes unhandled. -/
theorem C7_load_xml_errors {σ : Type} (env : Env σ) (path kind : String) :
    (∀ t, load_xml env path kind = .ok t ↔
      env.parse make_secure_parser_cfg path = .ok t) ∧
    (∀ d, load_xml env path kind = .error (.notWellFormed kind d) ↔
      env.parse make_secure_parser_cfg path = .syntaxError d) ∧
    (∀ d, load_xml env path kind = .error (.cannotRead kind path d) ↔
      env.parse make_secure_parser_cfg path = .ioError d) ∧
    (∀ k d k' p' d', RunError.notWellFormed k d ≠ RunError.cannotRead k' p' d') := by
  refine ⟨?_, ?_, ?_, fun k d k' p' d' => by simp⟩ <;>
    · intro z
      unfold load_xml
      cases hp : env.parse make_secure_parser_cfg path <;> simp [hp]

/-- C8: `compile_schema` is the compilation of the independent re-parse: its
result is exactly `XMLSchema` applied to `fromstring` (under the hardened
configuration) of `tostring` with an XML declaration and UTF-8 encoding; the
run performs the serialize / reparse-bytes / compile calls in that order with
the hardened configuration; and the result depends on the mutated tree only
through its serialization — two trees with equal serialized bytes compile
identically. -/
theorem C8_compile_reparse {σ : Type} (env : Env σ) (t t2 : Element) :
    ((compile_schema env t).1 =
      match env.XMLSchema
          (env.fromstring make_secure_parser_cfg (env.tostring true "utf-8" t)) with
        | .ok s => .ok s
        | .error ds => .error (.schemaCompilation ds)) ∧
    (compile_schema env t).2 =
      [.serializeTree, .parseBytes make_secure_parser_cfg, .compileCall] ∧
    (env.tostring true "utf-8" t = env.tostring true "utf-8" t2 →
      compile_schema env t = compile_schema env t2) := by
  refine ⟨?_, compile_schema_events env t, ?_⟩
  · unfold compile_schema
    split <;> simp_all
  · intro h
    unfold compile_schema
    rw [h]

/-- C8 witness: under the constant-serializer test environment, the two
structurally different trees `elemA` and `elemB` serialize identically, so
the theorem forces their compilations to coincide. -/
theorem C8_compile_reparse_witness :
    compile_schema testEnv elemA = compile_schema testEnv elemB :=
  (C8_compile_reparse testEnv elemA elemB).2.2 rfl

/-- C6: when the schema engine rejects the re-parsed schema with diagnostic
list `ds` (each entry carrying line, column and message), `compile_schema`
raises the compilation error aggregating exactly that full list; and
whenever a run's operational error is a compilation error, the run exits
with code 2 and the document-validation call never appears in its trace. -/
theorem C6_compilation_failure {σ : Type} (env : Env σ) (a b : String)
    (t : Element) (ds : List Diagnostic) :
    (env.XMLSchema
        (env.fromstring make_secure_parser_cfg (env.tostring true "utf-8" t)) =
          .error ds →
      (compile_schema env t).1 = .error (.schemaCompilation ds)) ∧
    ((validate env a b).opError = some (.schemaCompilation ds) →
      (validate env a b).exit = 2 ∧
      Event.docValidateCall ∉ (validate env a b).events) := by
  constructor
  · intro h
    unfold compile_schema
    rw [h]
  · intro h
    unfold validate at h ⊢
    repeat' split at h
    all_goals
      simp_all [statEvents, parseEvent, compile_schema_events]

/-- C6 witness: the compilation-failure environment `envCF` reaches the
compile stage, fails with the single diagnostic `diag0`, exits 2, and never
invokes document validation. -/
theorem C6_compilation_failure_witness :
    (compile_schema envCF elemA).1 = .error (.schemaCompilation [diag0]) ∧
    (validate envCF "/srv/schemas" "/sub.xml").exit = 2 ∧
    Event.docValidateCall ∉ (validate envCF "/srv/schemas" "/sub.xml").events :=
  ⟨(C6_compilation_failure envCF "/srv/schemas" "/sub.xml" elemA [diag0]).1 rfl,
   (C6_compilation_failure envCF "/srv/schemas" "/sub.xml" elemA [diag0]).2
     (by decide)⟩

/-- C4: if the trusted schema directory path or the submission path (in
their `str(Path(...))` form, as the source inspects them) contains the
forbidden marker in either slash convention, `validate` returns exit code 2
with the forbidden-path report and an empty external-call trace: no stat, no
XML parse — so the rejection precedes every load operation. -/
theorem C4_forbidden_rejection {σ : Type} (env : Env σ) (a b : String)
    (h : containsMarker (normPath a) = true ∨ containsMarker (normPath b) = true) :
    (validate env a b).exit = 2 ∧
    (validate env a b).opError = some .forbiddenPath ∧
    (validate env a b).events = [] := by
  have hb : (containsMarker (normPath a) || containsMarker (normPath b)) = true := by
    rcases h with h | h <;> simp [h]
  unfold validate
  rw [if_pos hb]
  exact ⟨rfl, rfl, rfl⟩

/-- C4 witness: a schema-directory argument containing the forward marker is
rejected with exit 2 before any external call. -/
theorem C4_forbidden_rejection_witness :
    (validate testEnv "/x/CommonTypes/v14/schemas" "/sub.xml").exit = 2 ∧
    (validate testEnv "/x/CommonTypes/v14/schemas" "/sub.xml").opError =
      some .forbiddenPath ∧
    (validate testEnv "/x/CommonTypes/v14/schemas" "/sub.xml").events = [] :=
  C4_forbidden_rejection testEnv "/x/CommonTypes/v14/schemas" "/sub.xml"
    (Or.inl (by decide))

/-- C9: every parser configuration recorded by any parse event of any run —
the three file loads and the re-parse of the serialized schema — is the one
hardened configuration, and that configuration has DTD loading disabled,
network access disabled, entity resolution disabled and the huge-tree
(unbounded growth) option disabled. -/
theorem C9_single_hardened_cfg {σ : Type} (env : Env σ) (a b : String) :
    (((validate env a b).events.filterMap eventCfg).all
      (fun c => c = make_secure_parser_cfg)) = true ∧
    make_secure_parser_cfg.load_dtd = false ∧
    make_secure_parser_cfg.no_network = true ∧
    make_secure_parser_cfg.resolve_entities = false ∧
    make_secure_parser_cfg.huge_tree = false := by
  refine ⟨?_, rfl, rfl, rfl, rfl⟩
  unfold validate
  repeat' split
  all_goals
    simp [statEvents, parseEvent, eventCfg, compile_schema_events,
      List.filterMap_append]

/-- C5: every run exits 0, 1 or 2; it exits 0 exactly when the pipeline
produced a compiled schema and loaded submission and the schema engine
accepts the document; it exits 1 exactly when the pipeline succeeded but the
engine rejects the document, in which case the full engine error log is what
the run reports (no deduplication, no truncation — it is the log itself);
and it exits 2 exactly when some operational stage (forbidden path, missing
directory or file, unreadable or malformed input, rewrite incompleteness,
compilation failure) failed. -/
theorem C5_tristate {σ : Type} (env : Env σ) (a b : String) :
    ((validate env a b).exit = 0 ∨ (validate env a b).exit = 1 ∨
      (validate env a b).exit = 2) ∧
    ((validate env a b).exit = 0 ↔
      ∃ s doc, pipelineSchemaDoc env a b = some (s, doc) ∧
        env.validateDoc s doc = true) ∧
    ((validate env a b).exit = 1 ↔
      ∃ s doc, pipelineSchemaDoc env a b = some (s, doc) ∧
        env.validateDoc s doc = false ∧
        (validate env a b).reported = env.error_log s doc) ∧
    ((validate env a b).exit = 2 ↔ pipelineSchemaDoc env a b = none) := by
  unfold validate pipelineSchemaDoc
  repeat' split
  all_goals try simp_all
  all_goals exact ⟨_, _, ⟨rfl, rfl⟩, by simp_all⟩

end FSA029
